import Mathlib

/-!
HAR output format of vhs (`httpx/har.go`).

A shallow embedding of the conversion from a correlated HTTP exchange to a
HAR entry: `ensureAbsoluteURL`, `extractCookies`, `extractPostData`,
`mapToHarNVP` and `HAR.addRequest`, followed by theorems about them.

Conventions of the embedding.

* A Go slice is a `Slice`: `Slice.null` is the nil slice, `Slice.of l` a
  non-nil slice with the elements `l`.
* A Go `map[string][]string` (`http.Header`, `url.Values`) is a `GoMap`: the
  list of its entries in the order in which a `range` statement visits them.
  Go leaves that order unspecified, so the theorems are stated for every
  order. The keys of a map are pairwise distinct (`GoMap.WF`).
* A pointer that the code tests against nil is an `Option`.
* `*Request` is mutated in place by the code; the embedding returns the
  updated `Request`.
* Calls into the Go standard library whose result is only copied into the
  entry (`url.URL.String`, `url.URL.Query`, `time.Time.Format`) are fields of
  a `Stdlib` value that the definitions take as an argument.
* Logging has no effect on the document and is left out.
* For the timings and the cache of an entry, the JSON object that `Encode`
  writes is given as a JSON value built from the struct tags of har.go
  (`toJSON`); the text layer of `encoding/json` is not modelled.
-/

namespace Vhs

/-! ## Go values -/

/-- Go slice with elements of type `α`; `null` is the nil slice. -/
inductive Slice (α : Type) where
  | null : Slice α
  | of (elems : List α) : Slice α
deriving DecidableEq, Repr

/-- The elements of a slice; a nil slice has none. -/
def Slice.toList {α : Type} : Slice α → List α
  | .null => []
  | .of l => l

/-- Go builtin `len` on a slice. -/
def Slice.len {α : Type} (s : Slice α) : Nat := s.toList.length

/-- Go builtin `append(s, a)` with one element: the result is never nil. -/
def Slice.append {α : Type} (s : Slice α) (a : α) : Slice α :=
  .of (s.toList ++ [a])

/-- Go `map[string][]string`, as the list of entries a `range` visits. -/
abbrev GoMap := List (String × List String)

/-- Keys of a map, in iteration order. -/
def GoMap.keys (m : GoMap) : List String := m.map Prod.fst

/-- Well-formedness of a map: no key occurs twice. -/
def GoMap.WF (m : GoMap) : Prop := (GoMap.keys m).Nodup

instance (m : GoMap) : Decidable (GoMap.WF m) := by
  unfold GoMap.WF; infer_instance

/-- Go map index `m[k]`: the value list stored under `k`, nil if absent. -/
def GoMap.index (m : GoMap) (k : String) : List String :=
  (m.lookup k).getD []

/-- The method `http.Header.Get` at a key that is already in canonical form
(the code only calls it with the literal `"Content-Type"`): the first value
stored under the key, or the empty string. -/
def Header.Get (h : GoMap) (key : String) : String :=
  match GoMap.index h key with
  | [] => ""
  | v :: _ => v

/-- Go `time.Time`: the wall clock reading (seconds and nanoseconds since
January 1, year 1, 00:00:00 UTC), the monotonic clock reading in nanoseconds
that a value obtained from `time.Now()` carries (`none` for a time without
one, such as a parsed or zero time), and the zone offset of its location. -/
structure Time where
  sec : Int
  nsec : Int
  mono : Option Int
  zone : Int
deriving DecidableEq, Repr

/-- The method `time.Time.IsZero`. -/
def Time.IsZero (t : Time) : Bool := t.sec == 0 && t.nsec == 0

/-- Smallest `time.Duration` (an int64 count of nanoseconds). -/
def minDuration : Int := -(2 ^ 63)

/-- Largest `time.Duration`. -/
def maxDuration : Int := 2 ^ 63 - 1

/-- Overflow handling of `time.Time.Sub` and `subMono`: a difference below
the smallest duration becomes the smallest duration, one above the largest
becomes the largest. -/
def saturate (d : Int) : Int :=
  if d < minDuration then minDuration
  else if maxDuration < d then maxDuration
  else d

/-- The function `subMono` of package time: the difference of two monotonic
clock readings as a duration. -/
def subMono (t u : Int) : Int := saturate (t - u)

/-- The method `time.Time.Sub`: the duration `t - u` in nanoseconds. When both
times carry a monotonic clock reading the difference of those readings is
taken, otherwise the difference of the wall clock readings; a result outside
the range of a `Duration` is replaced by the minimum or maximum duration. -/
def Time.Sub (t u : Time) : Int :=
  match t.mono, u.mono with
  | some tm, some um => subMono tm um
  | _, _ => saturate ((t.sec - u.sec) * 1000000000 + (t.nsec - u.nsec))

/-- The method `time.Duration.Milliseconds`: int64 division by `1e6`, which
truncates toward zero. -/
def Duration.Milliseconds (d : Int) : Int := Int.tdiv d 1000000

/-- Go `url.URL` (string components). -/
structure URL where
  Scheme : String
  User : String
  Host : String
  Path : String
  RawPath : String
  ForceQuery : Bool
  RawQuery : String
  Fragment : String
  RawFragment : String
deriving DecidableEq, Repr

/-- Go `http.Cookie`. -/
structure Cookie where
  Name : String
  Value : String
  Path : String
  Domain : String
  Expires : Time
  RawExpires : String
  MaxAge : Int
  Secure : Bool
  HttpOnly : Bool
  Raw : String
deriving DecidableEq, Repr

/-- Standard-library functions whose results the HAR code copies verbatim. -/
structure Stdlib where
  /-- The method `(*url.URL).String`. -/
  urlString : URL → String
  /-- The method `(*url.URL).Query`. -/
  urlQuery : URL → GoMap
  /-- The call `t.Format(time.RFC3339)`. -/
  formatRFC3339 : Time → String

/-! ## Messages -/

/-- Modelled from the spec: the declaration of `Response` (httpx/message.go) is
not among the sources; these are the fields that har.go and the tests read. -/
structure Response where
  ConnectionID : String
  Created : Time
  Status : String
  StatusCode : Int
  Proto : String
  ProtoMajor : Int
  ProtoMinor : Int
  Header : GoMap
  Body : String
  ContentLength : Int
  Cookies : Slice (Option Cookie)
  Location : String
deriving DecidableEq, Repr

/-- Modelled from the spec: the declaration of `Request` (httpx/message.go) is
not among the sources; these are the fields that har.go and the tests read.
`URL` is the URL the request carries (the code reads its fields without a nil
check), `PostForm` is `none` for a nil map, `Response` is `none` for a nil
pointer (no response was matched). -/
structure Request where
  ConnectionID : String
  Created : Time
  Method : String
  URL : URL
  Proto : String
  ProtoMajor : Int
  ProtoMinor : Int
  Header : GoMap
  MimeType : String
  PostForm : Option GoMap
  Body : String
  Cookies : Slice (Option Cookie)
  ServerAddr : String
  ServerPort : String
  RequestURI : String
  Response : Option Response
deriving DecidableEq, Repr

/-- Modelled from the spec: the method `GetConnectionID` of `Request`
(httpx/message.go) is not among the sources; it yields the connection
identifier of the message. -/
def Request.GetConnectionID (req : Request) : String := req.ConnectionID

/-! ## HAR format structs -/

/-- Name-value pair (`harNVP`). -/
structure harNVP where
  Name : String
  Value : String
  Comment : String
deriving DecidableEq, Repr

/-- Cookie entry (`harCookie`). -/
structure harCookie where
  Name : String
  Value : String
  Path : String
  Domain : String
  Expires : String
  HTTPOnly : Bool
  Secure : Bool
  Comment : String
deriving DecidableEq, Repr

/-- Zero value of `harCookie`. -/
def harCookie.zero : harCookie :=
  { Name := "", Value := "", Path := "", Domain := "", Expires := "",
    HTTPOnly := false, Secure := false, Comment := "" }

/-- Post data (`harPOST`). -/
structure harPOST where
  MIMEType : String
  Params : Slice harNVP
  Text : String
  Comment : String
deriving DecidableEq, Repr

/-- Zero value of `harPOST`. -/
def harPOST.zero : harPOST :=
  { MIMEType := "", Params := .null, Text := "", Comment := "" }

/-- Response content (`harContent`). -/
structure harContent where
  Size : Int
  Compression : Int
  MimeType : String
  Text : String
  Encoding : String
  Comment : String
deriving DecidableEq, Repr

/-- Zero value of `harContent`. -/
def harContent.zero : harContent :=
  { Size := 0, Compression := 0, MimeType := "", Text := "", Encoding := "",
    Comment := "" }

/-- Cache entry (`harCache`), an empty struct. -/
structure harCache where
deriving DecidableEq, Repr

/-- Timings of an entry (`harEntryTiming`). -/
structure harEntryTiming where
  Blocked : Int
  DNS : Int
  Connect : Int
  Send : Int
  Wait : Int
  Receive : Int
  SSL : Int
  Comment : String
deriving DecidableEq, Repr

/-- Request entry (`harRequest`). -/
structure harRequest where
  Method : String
  URL : String
  HTTPVersion : String
  Cookies : Slice harCookie
  Headers : Slice harNVP
  QueryString : Slice harNVP
  PostData : harPOST
  HeadersSize : Int
  BodySize : Int
  Comment : String
deriving DecidableEq, Repr

/-- Response entry (`harResponse`). -/
structure harResponse where
  Status : Int
  StatusText : String
  HTTPVersion : String
  Cookies : Slice harCookie
  Headers : Slice harNVP
  Content : harContent
  RedirectURL : String
  HeadersSize : Int
  BodySize : Int
  Comment : String
deriving DecidableEq, Repr

/-- Zero value of `harResponse`. -/
def harResponse.zero : harResponse :=
  { Status := 0, StatusText := "", HTTPVersion := "", Cookies := .null,
    Headers := .null, Content := harContent.zero, RedirectURL := "",
    HeadersSize := 0, BodySize := 0, Comment := "" }

/-- Entry of the log (`harEntry`). -/
structure harEntry where
  Pageref : String
  StartedDateTime : String
  Time : Int
  Request : harRequest
  Response : harResponse
  Cache : harCache
  Timings : harEntryTiming
  ServerIPAddress : String
  Connection : String
  Comment : String
deriving DecidableEq, Repr

/-- Creator object (`harCreator`). -/
structure harCreator where
  Name : String
  Version : String
  Comment : String
deriving DecidableEq, Repr

/-- Topmost object of a HAR file (`harLog`). -/
structure harLog where
  Version : String
  Creator : harCreator
  Entries : Slice harEntry
  Comment : String
deriving DecidableEq, Repr

/-- Root of a HAR file (`har`). -/
structure har where
  Log : harLog
deriving DecidableEq, Repr

/-- The document that `HAR.Init` starts from. -/
def har.init : har :=
  { Log := { Version := "1.2",
             Creator := { Name := "vhs", Version := "0.0.1", Comment := "" },
             Entries := .null, Comment := "" } }

/-! ## Helpers of har.go -/

/-- The assignment `harCookies[i].Expires = e`. -/
def setExpires (harCookies : List harCookie) (i : Nat) (e : String) :
    List harCookie :=
  match harCookies[i]? with
  | none => harCookies
  | some c => harCookies.set i { c with Expires := e }

/-- Body of the loop of `extractCookies` for index `i` and element `cookie`. -/
def extractCookiesStep (std : Stdlib) (harCookies : List harCookie) (i : Nat)
    (cookie : Option Cookie) : List harCookie :=
  match cookie with
  | none => harCookies
  | some c =>
    let harCookies := harCookies.set i
      { Name := c.Name, Value := c.Value, Path := c.Path, Domain := c.Domain,
        Expires := "", HTTPOnly := c.HttpOnly, Secure := c.Secure,
        Comment := "" }
    if c.Expires.IsZero then setExpires harCookies i ""
    else setExpires harCookies i (std.formatRFC3339 c.Expires)

/-- The loop `for i, cookie := range cookies` of `extractCookies`, started at
index `i` with the cookies still to visit. -/
def extractCookiesLoop (std : Stdlib) :
    Nat → List (Option Cookie) → List harCookie → List harCookie
  | _, [], harCookies => harCookies
  | i, cookie :: rest, harCookies =>
    extractCookiesLoop std (i + 1) rest
      (extractCookiesStep std harCookies i cookie)

/-- The function `extractCookies` of har.go. -/
def extractCookies (std : Stdlib) (cookies : Slice (Option Cookie)) :
    Slice harCookie :=
  match cookies with
  | .null => .of []
  | .of cs =>
    if cs.length = 0 then .of []
    else
      .of (extractCookiesLoop std 0 cs
        (List.replicate cs.length harCookie.zero))

/-- The function `mapToHarNVP` of har.go: the outer loop ranges over the map,
the inner loop over the values of the key. -/
def mapToHarNVP (m : GoMap) : Slice harNVP :=
  m.foldl
    (fun nvps e =>
      e.2.foldl
        (fun nvps v => nvps.append { Name := e.1, Value := v, Comment := "" })
        nvps)
    (.of [])

/-- The function `extractPostData` of har.go. -/
def extractPostData (req : Request) : harPOST :=
  let post := harPOST.zero
  if req.Method ≠ "POST" then post
  else
    let post := { post with MIMEType := req.MimeType }
    match req.PostForm with
    | some form => { post with Params := mapToHarNVP form }
    | none => { post with Text := req.Body }

/-- The function `ensureAbsoluteURL` of har.go; the updated request is
returned. -/
def ensureAbsoluteURL (req : Request) : Request :=
  let req :=
    if req.URL.Scheme = "" then
      { req with URL := { req.URL with Scheme := "http" } }
    else req
  if req.URL.Host = "" then
    let host := ""
    let host := host ++ req.ServerAddr
    let host := if req.ServerPort ≠ "" then host ++ ":" ++ req.ServerPort
                else host
    { req with URL := { req.URL with Host := host } }
  else req

/-- The method `HAR.addRequest` of har.go: the updated document and the
updated request are returned. -/
def addRequest (std : Stdlib) (hh : har) (req : Request) : har × Request :=
  let req := ensureAbsoluteURL req
  let request : harRequest :=
    { Method := req.Method,
      URL := std.urlString req.URL,
      HTTPVersion := req.Proto,
      Cookies := extractCookies std req.Cookies,
      Headers := mapToHarNVP req.Header,
      QueryString := mapToHarNVP (std.urlQuery req.URL),
      PostData := extractPostData req,
      HeadersSize := -1,
      BodySize := req.Body.utf8ByteSize,
      Comment := "" }
  let (response, roundtrip) : harResponse × Int :=
    match req.Response with
    | none => (harResponse.zero, 0)
    | some resp =>
      let content : harContent :=
        { harContent.zero with
          Size := resp.ContentLength,
          MimeType := Header.Get resp.Header "Content-Type",
          Text := resp.Body }
      ({ Status := resp.StatusCode,
         StatusText := resp.Status,
         HTTPVersion := resp.Proto,
         Cookies := extractCookies std resp.Cookies,
         Headers := mapToHarNVP resp.Header,
         Content := content,
         RedirectURL := resp.Location,
         HeadersSize := -1,
         BodySize := resp.Body.utf8ByteSize,
         Comment := "" },
       Duration.Milliseconds (resp.Created.Sub req.Created))
  let entry : harEntry :=
    { Pageref := "",
      StartedDateTime := std.formatRFC3339 req.Created,
      Time := roundtrip,
      Request := request,
      Response := response,
      Cache := {},
      Timings := { Blocked := 0, DNS := 0, Connect := 0, Send := 1, Wait := 1,
                   Receive := 1, SSL := 0, Comment := "" },
      ServerIPAddress := req.ServerAddr,
      Connection := req.GetConnectionID,
      Comment := "" }
  ({ hh with Log := { hh.Log with Entries := hh.Log.Entries.append entry } },
   req)


/-- What `extractCookies` leaves at the position of `cookie`. -/
def cookieEntry (std : Stdlib) : Option Cookie → harCookie
  | none => harCookie.zero
  | some c =>
    { Name := c.Name, Value := c.Value, Path := c.Path, Domain := c.Domain,
      Expires := if c.Expires.IsZero then "" else std.formatRFC3339 c.Expires,
      HTTPOnly := c.HttpOnly, Secure := c.Secure, Comment := "" }

/-- The entry appended last to the document, if any. -/
def har.lastEntry (hh : har) : Option harEntry := hh.Log.Entries.toList.getLast?

/-- The scheme that `ensureAbsoluteURL` leaves in the URL. -/
def schemeAfter (req : Request) : String :=
  if req.URL.Scheme = "" then "http" else req.URL.Scheme

/-- The host that `ensureAbsoluteURL` leaves in the URL. -/
def hostAfter (req : Request) : String :=
  if req.URL.Host = "" then
    (if req.ServerPort = "" then req.ServerAddr
     else req.ServerAddr ++ ":" ++ req.ServerPort)
  else req.URL.Host

/-! ## Concrete inputs -/

/-- A stand-in for the standard library, used only to evaluate the
definitions on the concrete inputs below; none of the facts stated with it
depends on how it renders URLs or times. -/
def sampleStd : Stdlib :=
  { urlString := fun u => u.Scheme ++ "://" ++ u.Host ++ u.Path,
    urlQuery := fun _ => [],
    formatRFC3339 := fun _ => "" }

/-- A relative URL with path `/a`, as parsed from `GET /a HTTP/1.1`. -/
def urlRelative : URL :=
  { Scheme := "", User := "", Host := "", Path := "/a", RawPath := "",
    ForceQuery := false, RawQuery := "", Fragment := "", RawFragment := "" }

/-- A GET request for `/a` seen on server `10.0.0.1:8080`, with no matched
response. -/
def reqRelative : Request :=
  { ConnectionID := "c1", Created := { sec := 63745056000, nsec := 0, mono := none, zone := 0 },
    Method := "GET", URL := urlRelative, Proto := "HTTP/1.1", ProtoMajor := 1,
    ProtoMinor := 1, Header := [("Header", ["foo"])],
    MimeType := "text/plain; charset=utf-8", PostForm := none, Body := "",
    Cookies := .of [], ServerAddr := "10.0.0.1", ServerPort := "8080",
    RequestURI := "/a", Response := none }

/-- The same request without server address and port, as in the input-format
test of the repository, which leaves both unset. -/
def reqNoServer : Request :=
  { reqRelative with ServerAddr := "", ServerPort := "" }

/-- A POST request whose body was parsed into `PostForm` and whose MIME type
is the one the input-format test of the repository shows on its requests. -/
def reqPostForm : Request :=
  { reqRelative with
    Method := "POST", MimeType := "text/plain; charset=utf-8",
    PostForm := some [("a", ["1"])], Body := "a=1" }

/-- A POST request of type application/x-www-form-urlencoded whose `PostForm`
is nil. -/
def reqPostFormNil : Request :=
  { reqRelative with
    Method := "POST", MimeType := "application/x-www-form-urlencoded",
    PostForm := none, Body := "a=1" }

/-- A response created 1.5 ms before `reqRelative` and a request carrying it. -/
def reqWithResponse : Request :=
  { reqRelative with
    Response := some
      { ConnectionID := "c1",
        Created := { sec := 63745055999, nsec := 998500000, mono := none,
                     zone := 0 },
        Status := "204 No Content", StatusCode := 204, Proto := "HTTP/1.1",
        ProtoMajor := 1, ProtoMinor := 1, Header := [], Body := "",
        ContentLength := 0, Cookies := .of [], Location := "" } }

/-- A POST request of type text/plain with body "x" whose `PostForm` is the
empty non-nil map. -/
def reqPostEmptyForm : Request :=
  { reqRelative with
    Method := "POST", MimeType := "text/plain; charset=utf-8",
    PostForm := some [], Body := "x" }

/-- The request `reqWithResponse` with its creation time left at the zero
time, as on the requests of the input-format test of the repository; the
response was created in the year 2021. -/
def reqZeroCreated : Request :=
  { reqWithResponse with
    Created := { sec := 0, nsec := 0, mono := none, zone := 0 } }

/-- A request and its response stamped by `time.Now()`: the monotonic
readings are 2.5 ms apart while the wall clock was set back by one second
between the two. -/
def reqMonotonic : Request :=
  { reqRelative with
    Created := { sec := 63745056000, nsec := 0, mono := some 7000000,
                 zone := 0 },
    Response := some
      { ConnectionID := "c1",
        Created := { sec := 63745055999, nsec := 2500000,
                     mono := some 9500000, zone := 0 },
        Status := "204 No Content", StatusCode := 204, Proto := "HTTP/1.1",
        ProtoMajor := 1, ProtoMinor := 1, Header := [], Body := "",
        ContentLength := 0, Cookies := .of [], Location := "" } }

/-- A map with a two-valued key, a key without values and a one-valued key. -/
def sampleMap : GoMap := [("a", ["1", "2"]), ("b", []), ("c", ["3"])]

/-! ## JSON form of the timings and the cache

The encoder `json.NewEncoder(w).Encode(hh)` writes each struct as an object
whose keys are given by the struct tags of har.go; a field tagged `omitempty`
is left out when it holds its zero value. For the two structs whose JSON form
the spec fixes, `toJSON` gives that object as a JSON value. -/

/-- JSON values. -/
inductive JSON where
  | null : JSON
  | bool (b : Bool) : JSON
  | num (n : Int) : JSON
  | str (s : String) : JSON
  | arr (elems : List JSON) : JSON
  | obj (fields : List (String × JSON)) : JSON

/-- A string field tagged `omitempty`: left out when it is empty. -/
def omitStr (key s : String) : List (String × JSON) :=
  if s = "" then [] else [(key, .str s)]

/-- An integer field tagged `omitempty`: left out when it is zero. -/
def omitInt (key : String) (n : Int) : List (String × JSON) :=
  if n = 0 then [] else [(key, .num n)]

/-- JSON form of a `harEntryTiming`. -/
def harEntryTiming.toJSON (t : harEntryTiming) : JSON :=
  .obj (omitInt "blocked" t.Blocked ++ omitInt "dns" t.DNS
    ++ omitInt "connect" t.Connect
    ++ [("send", .num t.Send), ("wait", .num t.Wait),
        ("receive", .num t.Receive)]
    ++ omitInt "ssl" t.SSL ++ omitStr "comment" t.Comment)

/-- JSON form of a `harCache`: the empty object. -/
def harCache.toJSON (_ : harCache) : JSON := .obj []

/-- The request `reqRelative` with scheme and host already set. -/
def reqAbsolute : Request :=
  { reqRelative with
    URL := { urlRelative with Scheme := "https", Host := "example.com" } }

/-- A PUT request that carries a body, a MIME type and a parsed form. -/
def reqPutForm : Request :=
  { reqPostForm with Method := "PUT" }

/-! ## Characterisation of the loops -/

/-- Pairs that `mapToHarNVP` emits for one map entry. -/
def entryPairs (e : String × List String) : List harNVP :=
  e.2.map (fun v => { Name := e.1, Value := v, Comment := "" })

theorem inner_foldl_append (n : String) (vals : List String) (acc : Slice harNVP) :
    vals.foldl (fun nvps v => nvps.append { Name := n, Value := v, Comment := "" }) acc
      = (if vals = [] then acc else .of (acc.toList ++ entryPairs (n, vals))) := by
  induction vals generalizing acc with
  | nil => simp
  | cons v vs ih =>
    simp only [List.foldl_cons, ih]
    by_cases h : vs = []
    · subst h; simp [Slice.append, entryPairs]
    · simp [h, Slice.append, entryPairs, Slice.toList]

theorem inner_foldl_toList (n : String) (vals : List String) (acc : List harNVP) :
    vals.foldl (fun (nvps : Slice harNVP) v =>
        nvps.append { Name := n, Value := v, Comment := "" }) (Slice.of acc)
      = Slice.of (acc ++ entryPairs (n, vals)) := by
  rw [inner_foldl_append]
  by_cases h : vals = []
  · subst h; simp [entryPairs]
  · simp [h, Slice.toList]

theorem outer_foldl (m : GoMap) (acc : List harNVP) :
    m.foldl
      (fun (nvps : Slice harNVP) e =>
        e.2.foldl
          (fun (nvps : Slice harNVP) v =>
            nvps.append { Name := e.1, Value := v, Comment := "" })
          nvps)
      (Slice.of acc) = Slice.of (acc ++ m.flatMap entryPairs) := by
  induction m generalizing acc with
  | nil => simp
  | cons e m ih =>
    simp only [List.foldl_cons, inner_foldl_toList, ih, List.flatMap_cons, List.append_assoc]

theorem mapToHarNVP_eq (m : GoMap) : mapToHarNVP m = .of (m.flatMap entryPairs) := by
  unfold mapToHarNVP
  simpa using outer_foldl m []


theorem entryPairs_name (e : String × List String) (p : harNVP)
    (hp : p ∈ entryPairs e) : p.Name = e.1 ∧ p.Value ∈ e.2 := by
  unfold entryPairs at hp
  obtain ⟨v, hv, rfl⟩ := List.mem_map.1 hp
  exact ⟨rfl, hv⟩

theorem entryPairs_values (e : String × List String) :
    (entryPairs e).map (fun p => p.Value) = e.2 := by
  simp [entryPairs, Function.comp_def]

theorem filter_entryPairs_self (e : String × List String) :
    (entryPairs e).filter (fun p => p.Name = e.1) = entryPairs e := by
  apply List.filter_eq_self.2
  intro p hp
  simp [(entryPairs_name e p hp).1]

theorem filter_entryPairs_other (e : String × List String) (k : String)
    (h : e.1 ≠ k) : (entryPairs e).filter (fun p => p.Name = k) = [] := by
  apply List.filter_eq_nil_iff.2
  intro p hp
  simp [(entryPairs_name e p hp).1, h]

theorem filter_flatMap_absent (m : GoMap) (k : String) (h : k ∉ GoMap.keys m) :
    (m.flatMap entryPairs).filter (fun p => p.Name = k) = [] := by
  induction m with
  | nil => simp
  | cons e m ih =>
    simp only [GoMap.keys, List.map_cons, List.mem_cons, not_or] at h
    rw [List.flatMap_cons, List.filter_append,
      filter_entryPairs_other e k (fun he => h.1 he.symm)]
    simpa using ih h.2

theorem index_cons_self (e : String × List String) (m : GoMap) :
    GoMap.index (e :: m) e.1 = e.2 := by
  obtain ⟨k, vals⟩ := e
  simp [GoMap.index, List.lookup_cons]

theorem index_cons_other (e : String × List String) (m : GoMap) (k : String)
    (h : e.1 ≠ k) : GoMap.index (e :: m) k = GoMap.index m k := by
  obtain ⟨k0, vals⟩ := e
  have hk : (k == k0) = false := by
    simpa using fun hk => h hk.symm
  simp [GoMap.index, List.lookup_cons, hk]

theorem filter_flatMap_index (m : GoMap) (hm : GoMap.WF m) (k : String) :
    ((m.flatMap entryPairs).filter (fun p => p.Name = k)).map (fun p => p.Value)
      = (if k ∈ GoMap.keys m then GoMap.index m k else []) := by
  induction m with
  | nil => simp [GoMap.keys]
  | cons e m ih =>
    have hnd : e.1 ∉ GoMap.keys m ∧ GoMap.WF m := by
      simpa [GoMap.WF, GoMap.keys] using hm
    rw [List.flatMap_cons, List.filter_append, List.map_append]
    by_cases hk : e.1 = k
    · subst hk
      rw [filter_entryPairs_self, entryPairs_values,
        filter_flatMap_absent m e.1 hnd.1, index_cons_self]
      simp [GoMap.keys]
    · rw [filter_entryPairs_other e k hk, ih hnd.2, index_cons_other e m k hk]
      have : (k ∈ GoMap.keys (e :: m)) ↔ k ∈ GoMap.keys m := by
        simp only [GoMap.keys, List.map_cons, List.mem_cons]
        constructor
        · rintro (h | h)
          · exact absurd h.symm hk
          · exact h
        · exact Or.inr
      simp [this]

theorem mem_index_of_mem (m : GoMap) (hm : GoMap.WF m) (e : String × List String)
    (he : e ∈ m) : GoMap.index m e.1 = e.2 := by
  induction m with
  | nil => cases he
  | cons e0 m ih =>
    have hnd : e0.1 ∉ GoMap.keys m ∧ GoMap.WF m := by
      simpa [GoMap.WF, GoMap.keys] using hm
    rcases List.mem_cons.1 he with h | h
    · subst h; exact index_cons_self e m
    · have hne : e0.1 ≠ e.1 := by
        intro heq
        exact hnd.1 (by rw [heq]; exact List.mem_map_of_mem Prod.fst h)
      rw [index_cons_other e0 m e.1 hne]
      exact ih hnd.2 h

theorem set_at_length {α : Type} (pre : List α) (a b : α) (tail : List α) :
    (pre ++ a :: tail).set pre.length b = pre ++ b :: tail := by
  induction pre with
  | nil => rfl
  | cons x pre ih => simp [ih]

theorem get_at_length {α : Type} (pre : List α) (a : α) (tail : List α) :
    (pre ++ a :: tail)[pre.length]? = some a := by
  induction pre with
  | nil => simp
  | cons x pre ih => simpa using ih

theorem setExpires_at_length (pre : List harCookie) (c : harCookie)
    (tail : List harCookie) (e : String) :
    setExpires (pre ++ c :: tail) pre.length e
      = pre ++ { c with Expires := e } :: tail := by
  unfold setExpires
  rw [get_at_length]
  exact set_at_length pre c _ tail

theorem extractCookiesStep_at_length (std : Stdlib) (pre tail : List harCookie)
    (z : harCookie) (cookie : Option Cookie) (hz : z = harCookie.zero) :
    extractCookiesStep std (pre ++ z :: tail) pre.length cookie
      = pre ++ cookieEntry std cookie :: tail := by
  cases cookie with
  | none => subst hz; rfl
  | some c =>
    simp only [extractCookiesStep, cookieEntry, set_at_length]
    by_cases h : c.Expires.IsZero = true
    · simp [h, setExpires_at_length]
    · simp [h, setExpires_at_length]

theorem extractCookiesLoop_eq (std : Stdlib) (rest : List (Option Cookie))
    (pre : List harCookie) :
    extractCookiesLoop std pre.length rest
        (pre ++ List.replicate rest.length harCookie.zero)
      = pre ++ rest.map (cookieEntry std) := by
  induction rest generalizing pre with
  | nil => simp [extractCookiesLoop]
  | cons c rest ih =>
    simp only [extractCookiesLoop, List.length_cons, List.replicate_succ,
      List.map_cons]
    rw [extractCookiesStep_at_length std pre _ _ c rfl]
    have := ih (pre ++ [cookieEntry std c])
    simpa using this

theorem extractCookies_eq (std : Stdlib) (cookies : Slice (Option Cookie)) :
    extractCookies std cookies
      = Slice.of (cookies.toList.map (cookieEntry std)) := by
  cases cookies with
  | null => rfl
  | of cs =>
    unfold extractCookies
    by_cases h : cs.length = 0
    · have : cs = [] := List.length_eq_zero.1 h
      subst this; rfl
    · simp only [h, if_false, Slice.toList]
      simpa using extractCookiesLoop_eq std cs []

theorem string_append_eq_empty (a b : String) :
    a ++ b = "" ↔ a = "" ∧ b = "" := by
  simp [String.ext_iff, String.data_append]

theorem ensureAbsoluteURL_eq (req : Request) :
    ensureAbsoluteURL req
      = { req with URL := { req.URL with Scheme := schemeAfter req,
                                         Host := hostAfter req } } := by
  rcases req with ⟨cid, cr, m, ⟨sch, usr, host, p, rp, fq, rq, fr, rfr⟩, pr, pma,
    pmi, hd, mt, pf, b, ck, sa, sp, ru, resp⟩
  unfold ensureAbsoluteURL schemeAfter hostAfter
  by_cases hs : sch = "" <;> by_cases hh : host = "" <;> by_cases hp : sp = ""
    <;> simp [hs, hh, hp, String.empty_append]

theorem addRequest_request (std : Stdlib) (hh : har) (req : Request) :
    (addRequest std hh req).2 = ensureAbsoluteURL req := rfl

theorem ensureAbsoluteURL_response (req : Request) :
    (ensureAbsoluteURL req).Response = req.Response := by
  rw [ensureAbsoluteURL_eq]

theorem ensureAbsoluteURL_created (req : Request) :
    (ensureAbsoluteURL req).Created = req.Created := by
  rw [ensureAbsoluteURL_eq]

theorem ensureAbsoluteURL_of_set (req : Request)
    (hs : req.URL.Scheme ≠ "") (hh : req.URL.Host ≠ "") :
    ensureAbsoluteURL req = req := by
  rw [ensureAbsoluteURL_eq]
  simp [schemeAfter, hostAfter, hs, hh]

/-! ## Theorems about the claims -/

/-- C3: `ensureAbsoluteURL` fills in the missing URL parts and only those. The
scheme becomes "http" if it was empty and is otherwise unchanged; the host, if
it was empty, becomes `ServerAddr` when `ServerPort` is empty and `ServerAddr`
followed by ":" and `ServerPort` otherwise, and is unchanged if it was not
empty; every other field of the request keeps its value. -/
theorem ensureAbsoluteURL_fills_missing_parts (req : Request) :
    (ensureAbsoluteURL req).URL.Scheme
        = (if req.URL.Scheme = "" then "http" else req.URL.Scheme)
    ∧ (ensureAbsoluteURL req).URL.Host
        = (if req.URL.Host = "" then
            (if req.ServerPort = "" then req.ServerAddr
             else req.ServerAddr ++ ":" ++ req.ServerPort)
           else req.URL.Host)
    ∧ ensureAbsoluteURL req
        = { req with URL := { req.URL with
              Scheme := (ensureAbsoluteURL req).URL.Scheme,
              Host := (ensureAbsoluteURL req).URL.Host } } := by
  have h := ensureAbsoluteURL_eq req
  refine ⟨?_, ?_, ?_⟩
  · rw [h]; rfl
  · rw [h]; rfl
  · conv_lhs => rw [h]
    rw [h]

/-- C1: `extractPostData` does not choose the representation by content
type, as the claim and the doc comment of the function say it does; it
branches on whether `PostForm` is nil. A POST request of type text/plain
whose `PostForm` is set gets its form pairs in `Params` and an empty `Text`
although its body is "a=1"; a POST request of type
application/x-www-form-urlencoded whose `PostForm` is nil gets its body in
`Text` and no `Params`; and a POST request of type text/plain with body "x"
whose `PostForm` is empty but not nil gets neither `Params` nor `Text`. -/
theorem extractPostData_not_by_content_type :
    (reqPostForm.Method = "POST"
      ∧ reqPostForm.MimeType ≠ "application/x-www-form-urlencoded"
      ∧ reqPostForm.Body = "a=1"
      ∧ (extractPostData reqPostForm).Text = ""
      ∧ (extractPostData reqPostForm).Params
          = Slice.of [{ Name := "a", Value := "1", Comment := "" }])
    ∧ (reqPostFormNil.Method = "POST"
      ∧ reqPostFormNil.MimeType = "application/x-www-form-urlencoded"
      ∧ (extractPostData reqPostFormNil).Text = "a=1"
      ∧ (extractPostData reqPostFormNil).Params = Slice.null)
    ∧ (reqPostEmptyForm.Method = "POST"
      ∧ reqPostEmptyForm.MimeType ≠ "application/x-www-form-urlencoded"
      ∧ reqPostEmptyForm.Body = "x"
      ∧ (extractPostData reqPostEmptyForm).Text = ""
      ∧ (extractPostData reqPostEmptyForm).Params = Slice.of []) := by
  decide

/-- C2 (as stated, refuted): for the request `reqRelative`, which has no
attached response, the appended entry has request headersSize -1 but response
headersSize 0. -/
theorem addRequest_headersSize_without_response :
    reqRelative.Response = none
    ∧ ((addRequest sampleStd har.init reqRelative).1.lastEntry).map
        (fun e => (e.Request.HeadersSize, e.Response.HeadersSize))
      = some (-1, 0) := by
  decide

/-- C2 (amended): `addRequest` appends an entry whose request headersSize is
-1; its response headersSize is -1 when a response is attached, and when none
is attached the response is the zero-valued `harResponse`, whose headersSize
is 0. -/
theorem addRequest_headersSize (std : Stdlib) (hh : har) (req : Request) :
    ∃ e, (addRequest std hh req).1.Log.Entries
          = Slice.of (hh.Log.Entries.toList ++ [e])
      ∧ e.Request.HeadersSize = -1
      ∧ e.Response.HeadersSize = (if req.Response.isSome then -1 else 0)
      ∧ (req.Response.isSome = false → e.Response = harResponse.zero) := by
  refine ⟨_, rfl, rfl, ?_, ?_⟩
  · rw [ensureAbsoluteURL_response]
    cases req.Response <;> rfl
  · rw [ensureAbsoluteURL_response]
    cases req.Response with
    | none => intro _; rfl
    | some r => intro h; cases h

/-- C4 (as stated, refuted): the entry time is not always the number of
milliseconds between the two creation timestamps. For `reqZeroCreated`, whose
creation time is the zero time and whose response was created in 2021, the
two wall clock readings are 63745055999998 ms apart, but the entry time is
9223372036854, the milliseconds of the largest duration. -/
theorem addRequest_roundtrip_time_saturates :
    reqZeroCreated.Created = { sec := 0, nsec := 0, mono := none, zone := 0 }
    ∧ (reqZeroCreated.Response.map (fun r => r.Created))
        = some { sec := 63745055999, nsec := 998500000, mono := none,
                 zone := 0 }
    ∧ Int.tdiv ((63745055999 - 0) * 1000000000 + (998500000 - 0)) 1000000
        = 63745055999998
    ∧ ((addRequest sampleStd har.init reqZeroCreated).1.lastEntry).map
        (fun e => e.Time) = some 9223372036854 := by
  decide

/-- C4 (amended): the round-trip time of the appended entry. With no attached
response it is 0. With an attached response, let `D` be the difference in
nanoseconds between the creation timestamps of response and request, taken
between their monotonic clock readings when both carry one and between their
wall clock readings otherwise. When `D` fits in a duration (an int64), the
time is `D` divided by one million with truncation toward zero, so that it
differs from `D` by less than a millisecond and never exceeds it in
magnitude; when `D` is larger the time is 9223372036854, and when `D` is
smaller it is -9223372036854. -/
theorem addRequest_roundtrip_time (std : Stdlib) (hh : har) (req : Request) :
    ∃ e, (addRequest std hh req).1.Log.Entries
          = Slice.of (hh.Log.Entries.toList ++ [e])
      ∧ (req.Response = none → e.Time = 0)
      ∧ (∀ resp, req.Response = some resp → ∀ D : Int,
          D = (match resp.Created.mono, req.Created.mono with
               | some a, some b => a - b
               | _, _ => (resp.Created.sec - req.Created.sec) * 1000000000
                          + (resp.Created.nsec - req.Created.nsec)) →
          (-9223372036854775808 ≤ D → D ≤ 9223372036854775807 →
              e.Time = Int.tdiv D 1000000
              ∧ 1000000 * e.Time + Int.tmod D 1000000 = D
              ∧ (1000000 * e.Time).natAbs ≤ D.natAbs
              ∧ D.natAbs < (1000000 * e.Time).natAbs + 1000000)
          ∧ (9223372036854775807 < D → e.Time = 9223372036854)
          ∧ (D < -9223372036854775808 → e.Time = -9223372036854)) := by
  have key : ∀ d : Int,
      1000000 * Int.tdiv d 1000000 + Int.tmod d 1000000 = d
      ∧ (1000000 * Int.tdiv d 1000000).natAbs ≤ d.natAbs
      ∧ d.natAbs < (1000000 * Int.tdiv d 1000000).natAbs + 1000000 := by
    intro d
    have h1 := Int.tdiv_add_tmod d 1000000
    have h2 : Int.tdiv d 1000000
        = if 0 ≤ d then d / 1000000 else -((-d) / 1000000) := by
      by_cases hd : 0 ≤ d
      · rw [if_pos hd]; exact Int.tdiv_eq_ediv hd (by norm_num)
      · rw [if_neg hd]
        have h3 := Int.neg_tdiv (-d) 1000000
        rw [neg_neg] at h3
        rw [h3, Int.tdiv_eq_ediv (by omega) (by norm_num)]
    refine ⟨h1, ?_, ?_⟩ <;> rw [h2] <;> split <;> omega
  have hsub : ∀ (t u : Time) (D : Int),
      D = (match t.mono, u.mono with
           | some a, some b => a - b
           | _, _ => (t.sec - u.sec) * 1000000000 + (t.nsec - u.nsec)) →
      t.Sub u = saturate D := by
    intro t u D hD
    subst hD
    unfold Time.Sub subMono
    cases t.mono <;> cases u.mono <;> rfl
  have hsat : ∀ D : Int,
      (-9223372036854775808 ≤ D → D ≤ 9223372036854775807 → saturate D = D)
      ∧ (9223372036854775807 < D → saturate D = 9223372036854775807)
      ∧ (D < -9223372036854775808 → saturate D = -9223372036854775808) := by
    intro D
    unfold saturate minDuration maxDuration
    refine ⟨?_, ?_, ?_⟩
    · intro h1 h2
      rw [if_neg (by norm_num; omega), if_neg (by norm_num; omega)]
    · intro h1
      rw [if_neg (by norm_num; omega), if_pos (by norm_num; omega)]
      norm_num
    · intro h1
      rw [if_pos (by norm_num; omega)]
      norm_num
  refine ⟨_, rfl, ?_, ?_⟩
  · intro hnone
    show (match (ensureAbsoluteURL req).Response with
        | none => (harResponse.zero, (0 : Int))
        | some resp => (_, Duration.Milliseconds
            (resp.Created.Sub (ensureAbsoluteURL req).Created))).2 = _
    rw [ensureAbsoluteURL_response, hnone]
  · intro resp hresp D hD
    have hT : ∀ t : Int, t = Int.tdiv (saturate D) 1000000 →
        (-9223372036854775808 ≤ D → D ≤ 9223372036854775807 →
            t = Int.tdiv D 1000000
            ∧ 1000000 * t + Int.tmod D 1000000 = D
            ∧ (1000000 * t).natAbs ≤ D.natAbs
            ∧ D.natAbs < (1000000 * t).natAbs + 1000000)
        ∧ (9223372036854775807 < D → t = 9223372036854)
        ∧ (D < -9223372036854775808 → t = -9223372036854) := by
      intro t ht
      subst ht
      refine ⟨?_, ?_, ?_⟩
      · intro h1 h2
        rw [(hsat D).1 h1 h2]
        exact ⟨rfl, key D⟩
      · intro h1
        rw [(hsat D).2.1 h1]
        decide
      · intro h1
        rw [(hsat D).2.2 h1]
        decide
    apply hT
    show (match (ensureAbsoluteURL req).Response with
        | none => (harResponse.zero, (0 : Int))
        | some resp => (_, Duration.Milliseconds
            (resp.Created.Sub (ensureAbsoluteURL req).Created))).2 = _
    rw [ensureAbsoluteURL_response, ensureAbsoluteURL_created, hresp,
      ← hsub resp.Created req.Created D hD]
    rfl

/-- Witness of C4 (amended) at two requests: one whose response was created
1.5 ms before it by the wall clock, where the entry time is -1, the delta
truncated toward zero; and one stamped by `time.Now()` whose monotonic
readings are 2.5 ms apart while the wall clock went back, where the entry
time is 2. -/
theorem addRequest_roundtrip_time_witness :
    (∃ e, (addRequest sampleStd har.init reqWithResponse).1.Log.Entries
            = Slice.of (har.init.Log.Entries.toList ++ [e])
        ∧ e.Time = -1)
    ∧ (∃ e, (addRequest sampleStd har.init reqMonotonic).1.Log.Entries
            = Slice.of (har.init.Log.Entries.toList ++ [e])
        ∧ e.Time = 2) := by
  constructor
  · obtain ⟨e, h1, _, h3⟩ :=
      addRequest_roundtrip_time sampleStd har.init reqWithResponse
    refine ⟨e, h1, ?_⟩
    have h := (h3 _ rfl (-1500000) (by decide)).1 (by decide) (by decide)
    rw [h.1]; decide
  · obtain ⟨e, h1, _, h3⟩ :=
      addRequest_roundtrip_time sampleStd har.init reqMonotonic
    refine ⟨e, h1, ?_⟩
    have h := (h3 _ rfl 2500000 (by decide)).1 (by decide) (by decide)
    rw [h.1]; decide

/-- C5: `mapToHarNVP` emits exactly one name/value pair per value. For a map
(with pairwise distinct keys, visited in any order) the result is a non-nil
slice whose length is the sum of the lengths of the value lists; every pair
in it carries a value stored under its name; and for each key the values of
the pairs with that name are, in order and with multiplicity, the value list
stored under the key (none for a key without values or an absent key). -/
theorem mapToHarNVP_one_pair_per_value (m : GoMap) (hm : GoMap.WF m) :
    (∃ l, mapToHarNVP m = Slice.of l)
    ∧ (mapToHarNVP m).len = (m.map (fun e => e.2.length)).sum
    ∧ (∀ p ∈ (mapToHarNVP m).toList,
        p.Name ∈ GoMap.keys m ∧ p.Value ∈ GoMap.index m p.Name ∧ p.Comment = "")
    ∧ (∀ k, ((mapToHarNVP m).toList.filter (fun p => p.Name = k)).map
              (fun p => p.Value)
            = GoMap.index m k)
    ∧ (∀ k, ((mapToHarNVP m).toList.filter (fun p => p.Name = k)).length
            = (GoMap.index m k).length) := by
  have hidx : ∀ k, ((mapToHarNVP m).toList.filter (fun p => p.Name = k)).map
        (fun p => p.Value) = GoMap.index m k := by
    intro k
    rw [mapToHarNVP_eq, Slice.toList, filter_flatMap_index m hm k]
    by_cases hk : k ∈ GoMap.keys m
    · rw [if_pos hk]
    · rw [if_neg hk]
      have : m.lookup k = none := by
        rw [List.lookup_eq_none_iff]
        intro e he
        rw [bne_iff_ne]
        intro hke
        exact hk (by rw [hke]; exact List.mem_map_of_mem Prod.fst he)
      simp [GoMap.index, this]
  refine ⟨⟨_, mapToHarNVP_eq m⟩, ?_, ?_, hidx, ?_⟩
  · rw [mapToHarNVP_eq, Slice.len, Slice.toList, List.length_flatMap]
    congr 1
    apply List.map_congr_left
    intro e _
    simp [entryPairs]
  · intro p hp
    rw [mapToHarNVP_eq, Slice.toList] at hp
    obtain ⟨e, he, hpe⟩ := List.mem_flatMap.1 hp
    have hn := entryPairs_name e p hpe
    refine ⟨?_, ?_, ?_⟩
    · rw [hn.1]; exact List.mem_map_of_mem Prod.fst he
    · rw [hn.1, mem_index_of_mem m hm e he]; exact hn.2
    · unfold entryPairs at hpe
      obtain ⟨v, _, rfl⟩ := List.mem_map.1 hpe
      rfl
  · intro k
    rw [← hidx k, List.length_map]

/-- Witness of C5 at a map with a two-valued key, a key without values and a
one-valued key. -/
theorem mapToHarNVP_one_pair_per_value_witness :
    GoMap.WF sampleMap
    ∧ (mapToHarNVP sampleMap).len = 3
    ∧ ((mapToHarNVP sampleMap).toList.filter (fun p => p.Name = "a")).map
          (fun p => p.Value) = ["1", "2"]
    ∧ ((mapToHarNVP sampleMap).toList.filter (fun p => p.Name = "b")).length = 0 := by
  have h := mapToHarNVP_one_pair_per_value sampleMap (by decide)
  refine ⟨by decide, ?_, ?_, ?_⟩
  · rw [h.2.1]; decide
  · rw [h.2.2.2.1 "a"]; decide
  · rw [h.2.2.2.2 "b"]; decide

/-- C6: `extractCookies` maps cookies one to one. For a non-empty or empty
slice of non-nil cookies the result is a non-nil slice of the same length
whose element at each position carries the Name, Value, Path, Domain,
HttpOnly and Secure of the cookie at that position, an empty Comment, and as
Expires the empty string when the expiry is the zero time and its RFC3339
formatting otherwise. -/
theorem extractCookies_one_to_one (std : Stdlib) (cs : List Cookie) :
    (extractCookies std (Slice.of (cs.map some))).len = cs.length
    ∧ extractCookies std (Slice.of (cs.map some))
        = Slice.of (cs.map (fun c =>
            { Name := c.Name, Value := c.Value, Path := c.Path,
              Domain := c.Domain,
              Expires := if c.Expires.IsZero then ""
                         else std.formatRFC3339 c.Expires,
              HTTPOnly := c.HttpOnly, Secure := c.Secure, Comment := "" }))
    ∧ (∀ (i : Nat) (c : Cookie), cs[i]? = some c →
        (extractCookies std (Slice.of (cs.map some))).toList[i]?
          = some ({ Name := c.Name, Value := c.Value, Path := c.Path,
                    Domain := c.Domain,
                    Expires := if c.Expires.IsZero then ""
                               else std.formatRFC3339 c.Expires,
                    HTTPOnly := c.HttpOnly, Secure := c.Secure,
                    Comment := "" } : harCookie)) := by
  have h : extractCookies std (Slice.of (cs.map some))
      = Slice.of (cs.map (fun c =>
          { Name := c.Name, Value := c.Value, Path := c.Path,
            Domain := c.Domain,
            Expires := if c.Expires.IsZero then ""
                       else std.formatRFC3339 c.Expires,
            HTTPOnly := c.HttpOnly, Secure := c.Secure, Comment := "" })) := by
    rw [extractCookies_eq]
    simp [Slice.toList, cookieEntry, Function.comp_def]
  refine ⟨?_, h, ?_⟩
  · rw [h]; simp [Slice.len, Slice.toList]
  · intro i c hc
    rw [h]
    simp [Slice.toList, hc]

/-- C7: the document is append-only and gains one entry per exchange. After
`addRequest` the entry list is the previous one, unchanged and in order,
followed by exactly one new entry built from the request, whether or not a
response is attached; the rest of the log is untouched. -/
theorem addRequest_appends_one_entry (std : Stdlib) (hh : har) (req : Request) :
    ∃ e, (addRequest std hh req).1.Log.Entries
          = Slice.of (hh.Log.Entries.toList ++ [e])
      ∧ (addRequest std hh req).1.Log.Entries.len = hh.Log.Entries.len + 1
      ∧ (addRequest std hh req).1.Log.Entries.toList.take hh.Log.Entries.len
          = hh.Log.Entries.toList
      ∧ (addRequest std hh req).1.lastEntry = some e
      ∧ e.Request.Method = req.Method
      ∧ e.ServerIPAddress = req.ServerAddr
      ∧ e.Connection = req.GetConnectionID
      ∧ (addRequest std hh req).1.Log.Version = hh.Log.Version
      ∧ (addRequest std hh req).1.Log.Creator = hh.Log.Creator
      ∧ (addRequest std hh req).1.Log.Comment = hh.Log.Comment := by
  have hent : ∀ e, (addRequest std hh req).1.Log.Entries
        = Slice.of (hh.Log.Entries.toList ++ [e]) →
      (addRequest std hh req).1.Log.Entries.len = hh.Log.Entries.len + 1
      ∧ (addRequest std hh req).1.Log.Entries.toList.take hh.Log.Entries.len
          = hh.Log.Entries.toList
      ∧ (addRequest std hh req).1.lastEntry = some e := by
    intro e he
    refine ⟨?_, ?_, ?_⟩
    · rw [he]; simp [Slice.len, Slice.toList]
    · rw [he]; simp [Slice.len, Slice.toList]
    · unfold har.lastEntry; rw [he]; simp [Slice.toList]
  refine ⟨_, rfl, (hent _ rfl).1, (hent _ rfl).2.1, (hent _ rfl).2.2, ?_, ?_, ?_,
    rfl, rfl, rfl⟩
  · show (ensureAbsoluteURL req).Method = req.Method
    rw [ensureAbsoluteURL_eq]
  · show (ensureAbsoluteURL req).ServerAddr = req.ServerAddr
    rw [ensureAbsoluteURL_eq]
  · show (ensureAbsoluteURL req).GetConnectionID = req.GetConnectionID
    rw [ensureAbsoluteURL_eq]; rfl

/-- C8 (as stated, refuted): `addRequest` changes the request it is handed.
For `reqRelative`, whose URL has neither scheme nor host, the scheme is "http"
and the host "10.0.0.1:8080" after the call. -/
theorem addRequest_mutates_request :
    reqRelative.URL.Scheme = "" ∧ reqRelative.URL.Host = ""
    ∧ (addRequest sampleStd har.init reqRelative).2.URL.Scheme = "http"
    ∧ (addRequest sampleStd har.init reqRelative).2.URL.Host = "10.0.0.1:8080"
    ∧ (addRequest sampleStd har.init reqRelative).2 ≠ reqRelative := by
  decide

/-- C8 (amended): `addRequest` leaves every field of the request as it was,
except the URL scheme and the URL host, which it fills in when they are empty
and leaves as they were when they are not. -/
theorem addRequest_request_frame (std : Stdlib) (hh : har) (req : Request) :
    (addRequest std hh req).2
        = { req with URL := { req.URL with
              Scheme := (addRequest std hh req).2.URL.Scheme,
              Host := (addRequest std hh req).2.URL.Host } }
    ∧ (addRequest std hh req).2.URL.Scheme
        = (if req.URL.Scheme = "" then "http" else req.URL.Scheme)
    ∧ (addRequest std hh req).2.URL.Host
        = (if req.URL.Host = "" then
            (if req.ServerPort = "" then req.ServerAddr
             else req.ServerAddr ++ ":" ++ req.ServerPort)
           else req.URL.Host) := by
  rw [addRequest_request]
  have h := ensureAbsoluteURL_eq req
  refine ⟨?_, ?_, ?_⟩
  · conv_lhs => rw [h]
    rw [h]
  · rw [h]; rfl
  · rw [h]; rfl

/-- C9 (as stated, refuted): for `reqNoServer`, whose URL host, server address
and server port are all empty, the host is still empty after
`ensureAbsoluteURL`. -/
theorem ensureAbsoluteURL_host_stays_empty :
    reqNoServer.URL.Host = "" ∧ reqNoServer.ServerAddr = ""
    ∧ reqNoServer.ServerPort = ""
    ∧ (ensureAbsoluteURL reqNoServer).URL.Host = "" := by
  decide

/-- C9 (amended): after `ensureAbsoluteURL` the scheme is never empty, and the
host is empty exactly when the host, the server address and the server port
of the request were all empty. -/
theorem ensureAbsoluteURL_scheme_host_nonempty (req : Request) :
    (ensureAbsoluteURL req).URL.Scheme ≠ ""
    ∧ ((ensureAbsoluteURL req).URL.Host = ""
        ↔ (req.URL.Host = "" ∧ req.ServerAddr = "" ∧ req.ServerPort = "")) := by
  rw [ensureAbsoluteURL_eq]
  refine ⟨?_, ?_⟩
  · show schemeAfter req ≠ ""
    unfold schemeAfter
    by_cases hs : req.URL.Scheme = ""
    · rw [if_pos hs]; decide
    · rw [if_neg hs]; exact hs
  · show hostAfter req = "" ↔ _
    unfold hostAfter
    by_cases hh : req.URL.Host = ""
    · by_cases hp : req.ServerPort = ""
      · simp [hh, hp]
      · have hne : req.ServerAddr ++ ":" ++ req.ServerPort ≠ "" := by
          intro h
          exact hp ((string_append_eq_empty _ _).1 h).2
        simp [hh, hp, hne]
    · simp [hh]

/-- C10: `Params` and `Text` of the post data are mutually exclusive. For
every request, the `harPOST` that `extractPostData` returns does not have
both a non-empty `Params` and a non-empty `Text`. -/
theorem extractPostData_params_text_exclusive (req : Request) :
    ¬ ((extractPostData req).Params.len ≠ 0 ∧ (extractPostData req).Text ≠ "") := by
  unfold extractPostData
  by_cases hm : req.Method = "POST"
  · cases hpf : req.PostForm with
    | none => simp [hm, harPOST.zero, Slice.len, Slice.toList]
    | some form => simp [hm, harPOST.zero]
  · simp [hm, harPOST.zero]

/-- C11: `ensureAbsoluteURL` changes nothing when scheme and host are already
set. For every request whose URL scheme and URL host are both non-empty, the
request after the call equals the request before it in every field. -/
theorem ensureAbsoluteURL_unchanged_when_set (req : Request)
    (hs : req.URL.Scheme ≠ "") (hh : req.URL.Host ≠ "") :
    ensureAbsoluteURL req = req :=
  ensureAbsoluteURL_of_set req hs hh

/-- Witness of C11 at a request for `https://example.com/a`. -/
theorem ensureAbsoluteURL_unchanged_when_set_witness :
    reqAbsolute.URL.Scheme ≠ "" ∧ reqAbsolute.URL.Host ≠ ""
    ∧ ensureAbsoluteURL reqAbsolute = reqAbsolute :=
  ⟨by decide, by decide,
    ensureAbsoluteURL_unchanged_when_set reqAbsolute (by decide) (by decide)⟩

/-- C12: every entry carries the fixed HAR fields. The entry appended by
`addRequest` has timings send = wait = receive = 1 with blocked, dns, connect
and ssl zero and no comment, so that its JSON form has exactly the keys send,
wait and receive; its cache is the empty object; its startedDateTime is the
RFC3339 formatting of `Request.Created`; its serverIPAddress is
`Request.ServerAddr`. -/
theorem addRequest_fixed_fields (std : Stdlib) (hh : har) (req : Request) :
    ∃ e, (addRequest std hh req).1.Log.Entries
          = Slice.of (hh.Log.Entries.toList ++ [e])
      ∧ e.Timings = { Blocked := 0, DNS := 0, Connect := 0, Send := 1,
                      Wait := 1, Receive := 1, SSL := 0, Comment := "" }
      ∧ e.Timings.toJSON
          = JSON.obj [("send", JSON.num 1), ("wait", JSON.num 1),
                      ("receive", JSON.num 1)]
      ∧ e.Cache.toJSON = JSON.obj []
      ∧ e.StartedDateTime = std.formatRFC3339 req.Created
      ∧ e.ServerIPAddress = req.ServerAddr := by
  refine ⟨_, rfl, rfl, ?_, rfl, ?_, ?_⟩
  · simp [harEntryTiming.toJSON, omitInt, omitStr]
  · show std.formatRFC3339 (ensureAbsoluteURL req).Created = _
    rw [ensureAbsoluteURL_created]
  · show (ensureAbsoluteURL req).ServerAddr = req.ServerAddr
    rw [ensureAbsoluteURL_eq]

/-- C16: `ensureAbsoluteURL` is idempotent. For every request, applying it
twice yields the same request as applying it once. -/
theorem ensureAbsoluteURL_idempotent (req : Request) :
    ensureAbsoluteURL (ensureAbsoluteURL req) = ensureAbsoluteURL req := by
  rcases req with ⟨cid, cr, m, ⟨sch, usr, host, p, rp, fq, rq, fr, rfr⟩, pr, pma,
    pmi, hd, mt, pf, b, ck, sa, sp, ru, resp⟩
  rw [ensureAbsoluteURL_eq, ensureAbsoluteURL_eq]
  by_cases hs : sch = "" <;> by_cases hh : host = "" <;> by_cases hp : sp = ""
    <;> simp [schemeAfter, hostAfter, hs, hh, hp]

/-- C17: `extractCookies` is total and length-preserving, also on absent
cookies. For every slice of optional cookies the result is a non-nil slice of
exactly the length of the input; the nil and the empty input give the empty
non-nil slice; and each position that holds a nil cookie gives the zero-valued
`harCookie`. -/
theorem extractCookies_total (std : Stdlib) (cookies : Slice (Option Cookie)) :
    ∃ l, extractCookies std cookies = Slice.of l
      ∧ l.length = cookies.len
      ∧ (cookies.len = 0 → l = [])
      ∧ (∀ i : Nat, cookies.toList[i]? = some none →
          l[i]? = some harCookie.zero)
      ∧ extractCookies std Slice.null = Slice.of []
      ∧ extractCookies std (Slice.of []) = Slice.of []
      ∧ harCookie.zero
          = { Name := "", Value := "", Path := "", Domain := "", Expires := "",
              HTTPOnly := false, Secure := false, Comment := "" } := by
  refine ⟨_, extractCookies_eq std cookies, ?_, ?_, ?_, rfl, rfl, rfl⟩
  · simp [Slice.len]
  · intro h
    have : cookies.toList = [] := List.length_eq_zero.1 h
    simp [this]
  · intro i hi
    simp [hi, cookieEntry]

/-- C18: only POST requests carry post data. For every request whose method
is not "POST", `extractPostData` returns the zero-valued `harPOST` (empty
MIMEType, nil Params, empty Text), whatever its body, MIME type and form. -/
theorem extractPostData_non_post (req : Request) (hm : req.Method ≠ "POST") :
    extractPostData req = harPOST.zero
    ∧ (extractPostData req).MIMEType = ""
    ∧ (extractPostData req).Params = Slice.null
    ∧ (extractPostData req).Text = "" := by
  have h : extractPostData req = harPOST.zero := by
    unfold extractPostData
    simp [hm]
  rw [h]
  exact ⟨rfl, rfl, rfl, rfl⟩

/-- Witness of C18 at a PUT request that carries a body, a MIME type and a
parsed form. -/
theorem extractPostData_non_post_witness :
    reqPutForm.Method ≠ "POST" ∧ reqPutForm.Body = "a=1"
    ∧ reqPutForm.PostForm = some [("a", ["1"])]
    ∧ extractPostData reqPutForm = harPOST.zero :=
  ⟨by decide, by decide, by decide,
    (extractPostData_non_post reqPutForm (by decide)).1⟩

end Vhs
